import Mathlib

/-!
Verification development for the evidence-processing pipeline of the
Real-Time-Immutable-Encryptions repository.

The definitions below are shallow embeddings of the Python sources:

* src/python_api/ai_analyzer.py — AIAnalyzer (detect_objects, detect_faces,
  detect_motion, assess_quality, estimate_noise) and
  EvidenceProcessor.process_video_evidence (frame sampling and aggregation);
* src/python_api/main.py — upload_evidence, process_evidence_background,
  delete_evidence and the two in-memory maps processing_status /
  completed_evidence, modelled as a labelled transition system whose steps
  are the await-free (hence atomic under the asyncio event loop) mutation
  spans of the code.

Numbers are embedded as exact rationals; Python dictionaries keyed by string
become insertion-ordered association lists; fallible external capability
calls (the YOLO detector, the face library, cv2 colour conversion) become
Except-valued inputs.
-/

namespace Evidence
/-- One object detection as delivered by the external YOLO capability:
one row of results.xyxy in detect_objects, keeping the fields the pipeline
reads (label and confidence). -/
structure Detection where
  label : String
  conf : ℚ
  deriving DecidableEq

/-- AIAnalyzer.detect_objects: when the detector capability is unavailable or
its call raises, log and return the empty list; otherwise keep exactly the
rows with conf strictly above 0.5 (the source test is conf > 0.5). -/
def detectObjects (raw : Except String (List Detection)) : List Detection :=
  match raw with
  | Except.error _ => []
  | Except.ok dets => dets.filter (fun d => (1 : ℚ)/2 < d.conf)

/-- One located face as delivered by the external face capability
(face_locations and face_encodings of the face_recognition library). -/
structure RawFace where
  encoding : List ℚ
  deriving DecidableEq

/-- A face record as built by AIAnalyzer.detect_faces: an index-derived id and
the fixed confidence 0.95 the source assigns because the capability provides
no native confidence signal. -/
structure Face where
  faceId : ℕ
  confidence : ℚ
  deriving DecidableEq

/-- AIAnalyzer.detect_faces: when the capability call raises, log and return
the empty list; otherwise enumerate the located faces into records with
confidence fixed at 0.95. -/
def detectFaces (raw : Except String (List RawFace)) : List Face :=
  match raw with
  | Except.error _ => []
  | Except.ok fs =>
      (List.range fs.length).map (fun i => { faceId := i, confidence := 95/100 })

/-- AIAnalyzer.detect_motion: the grayscale conversion and blur may raise on a
malformed frame (modelled by the Except input); on the success path the source
always returns False (no reference frame is kept). -/
def detectMotion (pre : Except String Unit) : Except String Bool :=
  match pre with
  | Except.error e => Except.error e
  | Except.ok _ => Except.ok false

/-- The four raw signals assess_quality measures on the grayscale frame:
Laplacian variance (sharpness), mean intensity (brightness), intensity
standard deviation (contrast) and the estimate_noise output. -/
structure QualitySignals where
  sharpness : ℚ
  brightness : ℚ
  contrast : ℚ
  noise : ℚ
  deriving DecidableEq

/-- Sharpness sub-score of assess_quality: min(sharpness / 1000.0, 1.0). -/
def sharpnessScore (s : ℚ) : ℚ := min (s / 1000) 1

/-- Brightness sub-score of assess_quality: 1.0 - abs(brightness - 128) / 128.0. -/
def brightnessScore (b : ℚ) : ℚ := 1 - |b - 128| / 128

/-- Contrast sub-score of assess_quality: min(contrast / 64.0, 1.0). -/
def contrastScore (c : ℚ) : ℚ := min (c / 64) 1

/-- Noise sub-score of assess_quality: 1.0 - min(noise / 50.0, 1.0). -/
def noiseScore (n : ℚ) : ℚ := 1 - min (n / 50) 1

/-- Rounding of Python round(x): round half to even, as an integer. -/
def roundHalfEven (x : ℚ) : ℤ :=
  if x - ⌊x⌋ < 1/2 then ⌊x⌋
  else if 1/2 < x - ⌊x⌋ then ⌊x⌋ + 1
  else if ⌊x⌋ % 2 = 0 then ⌊x⌋ else ⌊x⌋ + 1

/-- Python round(x, 3): round half to even at the third decimal place. -/
def pyRound3 (q : ℚ) : ℚ := (roundHalfEven (q * 1000) : ℚ) / 1000

/-- AIAnalyzer.assess_quality on the measured signals: the unweighted mean of
the four sub-scores, rounded to three decimals. -/
def assessQuality (sig : QualitySignals) : ℚ :=
  pyRound3 ((sharpnessScore sig.sharpness + brightnessScore sig.brightness +
    contrastScore sig.contrast + noiseScore sig.noise) / 4)

/-- Mean intensity of a grayscale frame, np.mean over its pixel values. -/
def meanIntensity (pixels : List ℚ) : ℚ := pixels.sum / pixels.length

/-- Border index interpolation of the default BORDER_REFLECT_101 of
cv2.filter2D: an index one step outside the valid range reflects about the
edge pixel, and a length-one axis always maps to index 0 (OpenCV
borderInterpolate). -/
def refl101 (i : ℤ) (n : ℕ) : ℕ :=
  if n = 1 then 0
  else if i < 0 then (-i).toNat
  else if (n : ℤ) ≤ i then (2 * (n : ℤ) - 2 - i).toNat
  else i.toNat

/-- Pixel access in a row-major grid, defaulting to 0 out of range (never
reached once indices have been reflected into range). -/
def px (g : List (List ℚ)) (i j : ℕ) : ℚ := (g.getD i []).getD j 0

/-- The 3x3 kernel of estimate_noise: 8 at the centre, -1 elsewhere, the
discrete Laplacian edge-response kernel of the source. -/
def noiseKernel (di dj : ℤ) : ℚ := if di = 0 ∧ dj = 0 then 8 else -1

/-- Offsets of a 3x3 kernel around its centre. -/
def kernelOffsets : List ℤ := [-1, 0, 1]

/-- Correlation of the noise kernel with the grid at one position, with
reflected border indices — one output pixel of cv2.filter2D. -/
def response (g : List (List ℚ)) (h w i j : ℕ) : ℚ :=
  (kernelOffsets.map (fun di =>
    (kernelOffsets.map (fun dj =>
      noiseKernel di dj *
        px g (refl101 ((i : ℤ) + di) h) (refl101 ((j : ℤ) + dj) w))).sum)).sum

/-- The full filter2D response of an h-by-w grid, row-major. -/
def filterResponse (g : List (List ℚ)) (h w : ℕ) : List ℚ :=
  (List.range (h * w)).map (fun k => response g h w (k / w) (k % w))

/-- A grid accepted by the external filtering call: nonempty and rectangular
with nonempty rows. On the remaining inputs (empty image, ragged rows — a
malformed frame) the numpy/cv2 calls raise, which estimate_noise converts to
its fallback. -/
def wellFormed (g : List (List ℚ)) : Bool :=
  g.length != 0 && (g.headD []).length != 0 &&
    g.all (fun r => r.length == (g.headD []).length)

/-- cv2.filter2D on the grayscale grid: the kernel response on a well-formed
grid, and a raised error (none) otherwise. -/
def filter2D (g : List (List ℚ)) : Option (List ℚ) :=
  if wellFormed g then some (filterResponse g g.length (g.headD []).length)
  else none

/-- Population variance, np.var: mean squared deviation from the mean. -/
def varOf (xs : List ℚ) : ℚ :=
  (xs.map (fun x => (x - meanIntensity xs) ^ 2)).sum / xs.length

/-- Standard deviation, np.std: the square root of the population variance. -/
noncomputable def stdOf (xs : List ℚ) : ℝ := Real.sqrt (varOf xs)

/-- AIAnalyzer.estimate_noise: the standard deviation of the filter2D response
of the grayscale frame under the 3x3 kernel; any failure of the underlying
calls is caught and replaced by the fallback constant 25.0. The function is
total: no input makes it propagate an error. -/
noncomputable def estimateNoise (g : List (List ℚ)) : ℝ :=
  match filter2D g with
  | none => 25
  | some resp => stdOf resp

/-- Per-frame inputs of analyze_frame: the outcomes of the fallible external
capability calls on that frame (object detector, face capability, the
grayscale conversion inside detect_motion) and the quality signals measured
from the frame. -/
structure FrameCaps where
  objRaw : Except String (List Detection)
  faceRaw : Except String (List RawFace)
  motionPre : Except String Unit
  quality : QualitySignals

/-- The fields of the metadata record that analyze_frame fills in and the
aggregation reads: detected objects, face records, motion flag and quality
score. -/
structure FrameResult where
  objects : List Detection
  faces : List Face
  motion : Bool
  quality : ℚ
  deriving DecidableEq

/-- AIAnalyzer.analyze_frame: object and face detection each swallow their own
failures (empty list for that detector only); detect_motion may raise on a
malformed frame, which reaches the outer catch of analyze_frame — the record
is then returned with the fields assigned so far, the motion flag and quality
score still at their defaults (False and 0.0). On the success path the motion
flag is the detect_motion result and the quality score is assess_quality. -/
def analyzeFrame (c : FrameCaps) : FrameResult :=
  let objects := detectObjects c.objRaw
  let faces := detectFaces c.faceRaw
  match detectMotion c.motionPre with
  | Except.error _ =>
      { objects := objects, faces := faces, motion := false, quality := 0 }
  | Except.ok b =>
      { objects := objects, faces := faces, motion := b,
        quality := assessQuality c.quality }

/-- Raw decode indices analyzed by process_video_evidence: frame_count runs
from 0 over the total decoded frames and a frame is analyzed exactly when
frame_count is divisible by the sampling stride (sample_rate, 30 in the
source). -/
def sampledIndices (total stride : ℕ) : List ℕ :=
  (List.range total).filter (fun i => i % stride = 0)

/-- Running aggregation state of the processing loop: the label histogram
all_objects, the running face total, the list of quality scores and the
frames_processed counter. -/
structure AggState where
  allObjects : List (String × ℕ)
  faceTotal : ℕ
  qualityScores : List ℚ
  framesProcessed : ℕ
  deriving DecidableEq

/-- Initial aggregation state of a job. -/
def initAgg : AggState := { allObjects := [], faceTotal := 0, qualityScores := [], framesProcessed := 0 }

/-- Python dict increment all_objects[label] = get(label, 0) + 1, preserving
insertion order. -/
def histAdd (h : List (String × ℕ)) (label : String) : List (String × ℕ) :=
  match h with
  | [] => [(label, 1)]
  | (l, n) :: rest =>
      if l = label then (l, n + 1) :: rest else (l, n) :: histAdd rest label

/-- One iteration of the aggregation loop body over a sampled frame record. -/
def stepFrame (s : AggState) (fr : FrameResult) : AggState :=
  { allObjects := fr.objects.foldl (fun h d => histAdd h d.label) s.allObjects
    faceTotal := s.faceTotal + fr.faces.length
    qualityScores := s.qualityScores ++ [fr.quality]
    framesProcessed := s.framesProcessed + 1 }

/-- np.mean of the quality scores, with the source guard: 0 on an empty list. -/
def qMean (xs : List ℚ) : ℚ := if xs = [] then 0 else xs.sum / xs.length

/-- np.min of the quality scores, with the source guard: 0 on an empty list. -/
def qMin (xs : List ℚ) : ℚ :=
  match xs with
  | [] => 0
  | y :: ys => ys.foldl min y

/-- np.max of the quality scores, with the source guard: 0 on an empty list. -/
def qMax (xs : List ℚ) : ℚ :=
  match xs with
  | [] => 0
  | y :: ys => ys.foldl max y

/-- The evidence-level summary compiled at the end of
process_video_evidence. -/
structure Summary where
  framesProcessed : ℕ
  objectsSummary : List (String × ℕ)
  faceTotal : ℕ
  qmean : ℚ
  qmin : ℚ
  qmax : ℚ
  deriving DecidableEq

/-- Compilation of the final summary statistics from the aggregation state. -/
def buildSummary (s : AggState) : Summary :=
  { framesProcessed := s.framesProcessed
    objectsSummary := s.allObjects
    faceTotal := s.faceTotal
    qmean := qMean s.qualityScores
    qmin := qMin s.qualityScores
    qmax := qMax s.qualityScores }

/-- The aggregation fold of process_video_evidence over a list of sampled
frame indices, starting from a given state. -/
def runAggFrom (caps : ℕ → FrameCaps) (l : List ℕ) (s : AggState) : AggState :=
  l.foldl (fun a i => stepFrame a (analyzeFrame (caps i))) s

/-- EvidenceProcessor.process_video_evidence after a successful open: analyze
every stride-th decoded frame in decode order and fold the records into the
summary. -/
def processVideo (total stride : ℕ) (caps : ℕ → FrameCaps) : Summary :=
  buildSummary (runAggFrom caps (sampledIndices total stride) initAgg)

/-- Job status values of the processing_status map in main.py. -/
inductive JStatus
  | pending
  | processing
  | completed
  | failed
  deriving DecidableEq

/-- Phase of the per-job background task process_evidence_background:
scheduled but not yet run, running, or finished (normally or by dying on a
KeyError after its job was deleted). -/
inductive TaskPhase
  | notStarted
  | started
  | done
  deriving DecidableEq

/-- The video source stored for a job; readable records whether
cv2.VideoCapture can open it (the SourceUnreadable distinction). -/
structure Source where
  readable : Bool
  deriving DecidableEq

/-- The per-job state visible through the two in-memory maps of main.py: the
ProcessingStatus entry (status, progress, error_message) and the
completed_evidence entry (result). -/
structure Job where
  status : JStatus
  progress : ℚ
  errorMessage : Option String
  result : Option Summary
  src : Source
  deriving DecidableEq

/-- The whole mutable state: jobs keyed by evidence id, the phase of each
background task, and the supply of fresh ids (uuid4 generation is modelled by
a counter, capturing its uniqueness). -/
structure Ledger where
  jobs : ℕ → Option Job
  tasks : ℕ → TaskPhase
  nextId : ℕ

/-- Pointwise update of the job map. -/
def updJobs (f : ℕ → Option Job) (id : ℕ) (v : Option Job) : ℕ → Option Job :=
  fun k => if k = id then v else f k

/-- Pointwise update of the task-phase map. -/
def updTasks (f : ℕ → TaskPhase) (id : ℕ) (v : TaskPhase) : ℕ → TaskPhase :=
  fun k => if k = id then v else f k

/-- State at process start: no jobs, no tasks. -/
def initLedger : Ledger :=
  { jobs := fun _ => none, tasks := fun _ => TaskPhase.notStarted, nextId := 0 }

/-- The ProcessingStatus record created by upload_evidence: status pending,
progress 0, no error, no result. -/
def pendingJob (src : Source) : Job :=
  { status := JStatus.pending, progress := 0, errorMessage := none,
    result := none, src := src }

/-- Result state of the synchronous part of upload_evidence: save the file,
insert a pending job under a fresh id and schedule the background task. Note
that the video source is not opened here; the state change is the same
whether or not the source is readable. -/
def uploadResult (s : Ledger) (src : Source) : Ledger :=
  { jobs := updJobs s.jobs s.nextId (some (pendingJob src))
    tasks := s.tasks
    nextId := s.nextId + 1 }

/-- Atomic steps of the system: each constructor is one await-free mutation
span of main.py (upload_evidence; the opening, completing and failing spans of
process_evidence_background; delete_evidence), so the interleavings of the
asyncio event loop are exactly the interleavings of these steps. Task steps
carry the guard id < nextId because a background task exists only for an id
that upload has assigned. -/
inductive Step : Ledger → Ledger → Prop
  | upload (s : Ledger) (src : Source) :
      Step s (uploadResult s src)
  | taskBeginRun (s : Ledger) (id : ℕ) (j : Job) :
      id < s.nextId → s.tasks id = TaskPhase.notStarted → s.jobs id = some j →
      Step s
        { jobs := updJobs s.jobs id
            (some { j with status := JStatus.processing, progress := 1/10 })
          tasks := updTasks s.tasks id TaskPhase.started
          nextId := s.nextId }
  | taskBeginGone (s : Ledger) (id : ℕ) :
      id < s.nextId → s.tasks id = TaskPhase.notStarted → s.jobs id = none →
      Step s
        { jobs := s.jobs
          tasks := updTasks s.tasks id TaskPhase.done
          nextId := s.nextId }
  | taskComplete (s : Ledger) (id : ℕ) (j : Job) (r : Summary) :
      id < s.nextId → s.tasks id = TaskPhase.started → s.jobs id = some j →
      j.src.readable = true →
      Step s
        { jobs := updJobs s.jobs id
            (some { j with status := JStatus.completed, progress := 1, result := some r })
          tasks := updTasks s.tasks id TaskPhase.done
          nextId := s.nextId }
  | taskFail (s : Ledger) (id : ℕ) (j : Job) (msg : String) :
      id < s.nextId → s.tasks id = TaskPhase.started → s.jobs id = some j →
      Step s
        { jobs := updJobs s.jobs id
            (some { j with status := JStatus.failed, errorMessage := some msg })
          tasks := updTasks s.tasks id TaskPhase.done
          nextId := s.nextId }
  | taskGone (s : Ledger) (id : ℕ) :
      id < s.nextId → s.tasks id = TaskPhase.started → s.jobs id = none →
      Step s
        { jobs := s.jobs
          tasks := updTasks s.tasks id TaskPhase.done
          nextId := s.nextId }
  | deleteJob (s : Ledger) (id : ℕ) :
      Step s
        { jobs := updJobs s.jobs id none
          tasks := s.tasks
          nextId := s.nextId }

/-- States reachable from process start. -/
def Reach (s : Ledger) : Prop := Relation.ReflTransGen Step initLedger s

/-- Field invariant of one job entry relative to its task phase: result and
error_message presence determined by the status, and the status consistent
with the phase of the owning task; completed implies the source was
readable. -/
def StatusInv (j : Job) (ph : TaskPhase) : Prop :=
  (j.status = JStatus.pending →
    j.result = none ∧ j.errorMessage = none ∧ ph = TaskPhase.notStarted)
  ∧ (j.status = JStatus.processing →
    j.result = none ∧ j.errorMessage = none ∧ ph = TaskPhase.started)
  ∧ (j.status = JStatus.completed →
    (∃ r, j.result = some r) ∧ j.errorMessage = none ∧ ph = TaskPhase.done
      ∧ j.src.readable = true)
  ∧ (j.status = JStatus.failed →
    j.result = none ∧ (∃ m, j.errorMessage = some m) ∧ ph = TaskPhase.done)

/-- Global state invariant: ids at or above the fresh counter are untouched,
and every stored job satisfies its field invariant. -/
def Inv (s : Ledger) : Prop :=
  (∀ id, s.nextId ≤ id → s.jobs id = none ∧ s.tasks id = TaskPhase.notStarted)
  ∧ (∀ id j, s.jobs id = some j → id < s.nextId ∧ StatusInv j (s.tasks id))

/-- Stability target for a terminally observed job: the fresh counter never
drops below its value at observation time, the owning task stays finished,
and the job is either deleted or keeps the observed status. -/
def TerminalStable (id : ℕ) (st : JStatus) (n : ℕ) (t : Ledger) : Prop :=
  n ≤ t.nextId ∧ t.tasks id = TaskPhase.done ∧
    (t.jobs id = none ∨ ∃ j2, t.jobs id = some j2 ∧ j2.status = st)

/-- Per-frame capability outcomes in which the object detector fails on every
call while the face capability, motion path and quality signals are healthy. -/
def failingCaps : ℕ → FrameCaps := fun _ =>
  { objRaw := Except.error "object detection failed"
    faceRaw := Except.ok []
    motionPre := Except.ok ()
    quality := { sharpness := 500, brightness := 128, contrast := 32, noise := 10 } }

/-- A readable source, as submitted in the normal path. -/
def srcGood : Source := { readable := true }

/-- A source that cv2.VideoCapture cannot open (SourceUnreadable). -/
def srcBad : Source := { readable := false }

/-- State after one upload of a readable source into a fresh system. -/
def uploadedOnce : Ledger := uploadResult initLedger srcGood

/-- State after the upload of an unreadable source into a fresh system: the
job is created pending even though the source cannot be opened. -/
def L1 : Ledger := uploadResult initLedger srcBad

/-- The job after its background task has set status processing. -/
def jobProcessingBad : Job :=
  { pendingJob srcBad with status := JStatus.processing, progress := 1/10 }

/-- State after the background task of the unreadable-source job starts. -/
def L2 : Ledger :=
  { jobs := updJobs L1.jobs 0 (some jobProcessingBad)
    tasks := updTasks L1.tasks 0 TaskPhase.started
    nextId := L1.nextId }

/-- The job after its background task caught the open failure and failed it. -/
def jobFailedBad : Job :=
  { jobProcessingBad with status := JStatus.failed, errorMessage := some "Cannot open video: uploads/bad.mp4" }

/-- State after the background task of the unreadable-source job fails it. -/
def L3 : Ledger :=
  { jobs := updJobs L2.jobs 0 (some jobFailedBad)
    tasks := updTasks L2.tasks 0 TaskPhase.done
    nextId := L2.nextId }

/-- State after the failed job is deleted. -/
def L4 : Ledger :=
  { jobs := updJobs L3.jobs 0 none
    tasks := L3.tasks
    nextId := L3.nextId }

lemma roundHalfEven_nonneg (x : ℚ) (h0 : 0 ≤ x) : 0 ≤ roundHalfEven x := by
  have hf : (0 : ℤ) ≤ ⌊x⌋ := Int.floor_nonneg.mpr h0
  unfold roundHalfEven
  split
  · exact hf
  · split
    · omega
    · split
      · exact hf
      · omega

lemma roundHalfEven_le (x : ℚ) (B : ℤ) (hB : x ≤ (B : ℚ)) : roundHalfEven x ≤ B := by
  have hf : ⌊x⌋ ≤ B := by
    have := Int.floor_le_floor hB
    simpa using this
  have hsucc : ¬ (x - ⌊x⌋ < 1/2) → ⌊x⌋ + 1 ≤ B := by
    intro h
    push_neg at h
    have hlt : (⌊x⌋ : ℚ) < x := by
      have : (0 : ℚ) < x - ⌊x⌋ := lt_of_lt_of_le (by norm_num) h
      linarith
    have : (⌊x⌋ : ℚ) < (B : ℚ) := lt_of_lt_of_le hlt hB
    exact_mod_cast Int.add_one_le_iff.mpr (by exact_mod_cast this)
  unfold roundHalfEven
  split
  · exact hf
  · rename_i h1
    split
    · exact hsucc h1
    · split
      · exact hf
      · exact hsucc h1

lemma pyRound3_mem (q : ℚ) (h0 : 0 ≤ q) (h1 : q ≤ 1) :
    0 ≤ pyRound3 q ∧ pyRound3 q ≤ 1 := by
  have hx0 : 0 ≤ q * 1000 := by positivity
  have hx1 : q * 1000 ≤ ((1000 : ℤ) : ℚ) := by push_cast; linarith
  have hlo := roundHalfEven_nonneg (q * 1000) hx0
  have hhi := roundHalfEven_le (q * 1000) 1000 hx1
  constructor
  · unfold pyRound3
    have : (0 : ℚ) ≤ (roundHalfEven (q * 1000) : ℚ) := by exact_mod_cast hlo
    positivity
  · unfold pyRound3
    rw [div_le_one (by norm_num)]
    exact_mod_cast hhi

lemma sharpnessScore_mem (s : ℚ) (hs : 0 ≤ s) :
    0 ≤ sharpnessScore s ∧ sharpnessScore s ≤ 1 := by
  unfold sharpnessScore
  constructor
  · exact le_min (by positivity) (by norm_num)
  · exact min_le_right _ _

lemma brightnessScore_mem (b : ℚ) (hb0 : 0 ≤ b) (hb1 : b ≤ 255) :
    0 ≤ brightnessScore b ∧ brightnessScore b ≤ 1 := by
  unfold brightnessScore
  have habs : |b - 128| ≤ 128 := abs_le.mpr ⟨by linarith, by linarith⟩
  have hnn : 0 ≤ |b - 128| := abs_nonneg _
  constructor
  · have : |b - 128| / 128 ≤ 1 := by
      rw [div_le_one (by norm_num)]; exact habs
    linarith
  · have : 0 ≤ |b - 128| / 128 := by positivity
    linarith

lemma contrastScore_mem (c : ℚ) (hc : 0 ≤ c) :
    0 ≤ contrastScore c ∧ contrastScore c ≤ 1 := by
  unfold contrastScore
  constructor
  · exact le_min (by positivity) (by norm_num)
  · exact min_le_right _ _

lemma noiseScore_mem (n : ℚ) (hn : 0 ≤ n) :
    0 ≤ noiseScore n ∧ noiseScore n ≤ 1 := by
  unfold noiseScore
  have h0 : 0 ≤ min (n / 50) 1 := le_min (by positivity) (by norm_num)
  have h1 : min (n / 50) 1 ≤ 1 := min_le_right _ _
  constructor <;> linarith

lemma noiseScore_eq_clamp (n : ℚ) : noiseScore n = max 0 (1 - n / 50) := by
  unfold noiseScore
  rcases le_total (n / 50) 1 with h | h
  · rw [min_eq_left h, max_eq_right (by linarith)]
  · rw [min_eq_right h, max_eq_left (by linarith)]
    ring

lemma meanIntensity_replicate (n : ℕ) (hpos : 0 < n) (v : ℚ) :
    meanIntensity (List.replicate n v) = v := by
  unfold meanIntensity
  rw [List.sum_replicate, List.length_replicate]
  have hn : (n : ℚ) ≠ 0 := Nat.cast_ne_zero.mpr hpos.ne'
  rw [nsmul_eq_mul]
  field_simp

lemma inv_init : Inv initLedger := by
  constructor
  · intro id _
    exact ⟨rfl, rfl⟩
  · intro id j h
    cases h

lemma status_of_notStarted {j : Job} {ph : TaskPhase} (hsi : StatusInv j ph)
    (h : ph = TaskPhase.notStarted) :
    j.status = JStatus.pending ∧ j.result = none ∧ j.errorMessage = none := by
  obtain ⟨h1, h2, h3, h4⟩ := hsi
  subst h
  cases hst : j.status with
  | pending => exact ⟨rfl, (h1 hst).1, (h1 hst).2.1⟩
  | processing => exact TaskPhase.noConfusion (h2 hst).2.2
  | completed => exact TaskPhase.noConfusion (h3 hst).2.2.1
  | failed => exact TaskPhase.noConfusion (h4 hst).2.2

lemma status_of_started {j : Job} {ph : TaskPhase} (hsi : StatusInv j ph)
    (h : ph = TaskPhase.started) :
    j.status = JStatus.processing ∧ j.result = none ∧ j.errorMessage = none := by
  obtain ⟨h1, h2, h3, h4⟩ := hsi
  subst h
  cases hst : j.status with
  | pending => exact TaskPhase.noConfusion (h1 hst).2.2
  | processing => exact ⟨rfl, (h2 hst).1, (h2 hst).2.1⟩
  | completed => exact TaskPhase.noConfusion (h3 hst).2.2.1
  | failed => exact TaskPhase.noConfusion (h4 hst).2.2

lemma inv_step {s t : Ledger} (hinv : Inv s) (hstep : Step s t) : Inv t := by
  obtain ⟨hfresh, hjob⟩ := hinv
  cases hstep with
  | upload src =>
      constructor
      · intro id hid
        have hid1 : s.nextId + 1 ≤ id := hid
        have hid2 : s.nextId ≤ id := by omega
        obtain ⟨hj0, ht0⟩ := hfresh id hid2
        refine ⟨?_, ht0⟩
        show updJobs s.jobs s.nextId (some (pendingJob src)) id = none
        unfold updJobs
        rw [if_neg (by omega)]
        exact hj0
      · intro id j hj
        by_cases hc : id = s.nextId
        · subst hc
          have hj2 : some (pendingJob src) = some j := by
            simpa [uploadResult, updJobs] using hj
          obtain rfl : pendingJob src = j := Option.some.inj hj2
          refine ⟨Nat.lt_succ_self _, ?_⟩
          obtain ⟨_, ht0⟩ := hfresh s.nextId (le_refl _)
          show StatusInv (pendingJob src) (s.tasks s.nextId)
          rw [ht0]
          simp [StatusInv, pendingJob]
        · have hj2 : s.jobs id = some j := by
            simpa [uploadResult, updJobs, hc] using hj
          obtain ⟨hlt, hsi⟩ := hjob id j hj2
          exact ⟨Nat.lt_succ_of_lt hlt, hsi⟩
  | taskBeginRun id2 j2 hlt ht hjid =>
      have hstat := status_of_notStarted (hjob id2 j2 hjid).2 ht
      constructor
      · intro id hid
        have hid2 : s.nextId ≤ id := hid
        obtain ⟨hj0, ht0⟩ := hfresh id hid2
        constructor
        · show updJobs s.jobs id2 _ id = none
          unfold updJobs
          rw [if_neg (by omega)]
          exact hj0
        · show updTasks s.tasks id2 TaskPhase.started id = TaskPhase.notStarted
          unfold updTasks
          rw [if_neg (by omega)]
          exact ht0
      · intro id j hj
        by_cases hc : id = id2
        · subst hc
          have hj2 : some { j2 with status := JStatus.processing, progress := (1 : ℚ)/10 } = some j := by
            simpa [updJobs] using hj
          obtain rfl := Option.some.inj hj2
          refine ⟨hlt, ?_⟩
          show StatusInv _ (updTasks s.tasks id TaskPhase.started id)
          unfold updTasks
          rw [if_pos rfl]
          simp [StatusInv]
          exact ⟨hstat.2.1, hstat.2.2⟩
        · have hj2 : s.jobs id = some j := by
            simpa [updJobs, hc] using hj
          obtain ⟨hlt2, hsi⟩ := hjob id j hj2
          refine ⟨hlt2, ?_⟩
          show StatusInv j (updTasks s.tasks id2 TaskPhase.started id)
          unfold updTasks
          rw [if_neg hc]
          exact hsi
  | taskBeginGone id2 hlt ht hjid =>
      constructor
      · intro id hid
        have hid2 : s.nextId ≤ id := hid
        obtain ⟨hj0, ht0⟩ := hfresh id hid2
        refine ⟨hj0, ?_⟩
        show updTasks s.tasks id2 TaskPhase.done id = TaskPhase.notStarted
        unfold updTasks
        rw [if_neg (by omega)]
        exact ht0
      · intro id j hj
        by_cases hc : id = id2
        · subst hc
          rw [hjid] at hj
          cases hj
        · obtain ⟨hlt2, hsi⟩ := hjob id j hj
          refine ⟨hlt2, ?_⟩
          show StatusInv j (updTasks s.tasks id2 TaskPhase.done id)
          unfold updTasks
          rw [if_neg hc]
          exact hsi
  | taskComplete id2 j2 r hlt ht hjid hread =>
      have hstat := status_of_started (hjob id2 j2 hjid).2 ht
      constructor
      · intro id hid
        have hid2 : s.nextId ≤ id := hid
        obtain ⟨hj0, ht0⟩ := hfresh id hid2
        constructor
        · show updJobs s.jobs id2 _ id = none
          unfold updJobs
          rw [if_neg (by omega)]
          exact hj0
        · show updTasks s.tasks id2 TaskPhase.done id = TaskPhase.notStarted
          unfold updTasks
          rw [if_neg (by omega)]
          exact ht0
      · intro id j hj
        by_cases hc : id = id2
        · subst hc
          have hj2 : some { j2 with status := JStatus.completed, progress := (1 : ℚ), result := some r } = some j := by
            simpa [updJobs] using hj
          obtain rfl := Option.some.inj hj2
          refine ⟨hlt, ?_⟩
          show StatusInv _ (updTasks s.tasks id TaskPhase.done id)
          unfold updTasks
          rw [if_pos rfl]
          simp [StatusInv]
          exact ⟨hstat.2.2, hread⟩
        · have hj2 : s.jobs id = some j := by
            simpa [updJobs, hc] using hj
          obtain ⟨hlt2, hsi⟩ := hjob id j hj2
          refine ⟨hlt2, ?_⟩
          show StatusInv j (updTasks s.tasks id2 TaskPhase.done id)
          unfold updTasks
          rw [if_neg hc]
          exact hsi
  | taskFail id2 j2 msg hlt ht hjid =>
      have hstat := status_of_started (hjob id2 j2 hjid).2 ht
      constructor
      · intro id hid
        have hid2 : s.nextId ≤ id := hid
        obtain ⟨hj0, ht0⟩ := hfresh id hid2
        constructor
        · show updJobs s.jobs id2 _ id = none
          unfold updJobs
          rw [if_neg (by omega)]
          exact hj0
        · show updTasks s.tasks id2 TaskPhase.done id = TaskPhase.notStarted
          unfold updTasks
          rw [if_neg (by omega)]
          exact ht0
      · intro id j hj
        by_cases hc : id = id2
        · subst hc
          have hj2 : some { j2 with status := JStatus.failed, errorMessage := some msg } = some j := by
            simpa [updJobs] using hj
          obtain rfl := Option.some.inj hj2
          refine ⟨hlt, ?_⟩
          show StatusInv _ (updTasks s.tasks id TaskPhase.done id)
          unfold updTasks
          rw [if_pos rfl]
          simp [StatusInv]
          exact hstat.2.1
        · have hj2 : s.jobs id = some j := by
            simpa [updJobs, hc] using hj
          obtain ⟨hlt2, hsi⟩ := hjob id j hj2
          refine ⟨hlt2, ?_⟩
          show StatusInv j (updTasks s.tasks id2 TaskPhase.done id)
          unfold updTasks
          rw [if_neg hc]
          exact hsi
  | taskGone id2 hlt ht hjid =>
      constructor
      · intro id hid
        have hid2 : s.nextId ≤ id := hid
        obtain ⟨hj0, ht0⟩ := hfresh id hid2
        refine ⟨hj0, ?_⟩
        show updTasks s.tasks id2 TaskPhase.done id = TaskPhase.notStarted
        unfold updTasks
        rw [if_neg (by omega)]
        exact ht0
      · intro id j hj
        by_cases hc : id = id2
        · subst hc
          rw [hjid] at hj
          cases hj
        · obtain ⟨hlt2, hsi⟩ := hjob id j hj
          refine ⟨hlt2, ?_⟩
          show StatusInv j (updTasks s.tasks id2 TaskPhase.done id)
          unfold updTasks
          rw [if_neg hc]
          exact hsi
  | deleteJob id2 =>
      constructor
      · intro id hid
        have hid2 : s.nextId ≤ id := hid
        obtain ⟨hj0, ht0⟩ := hfresh id hid2
        refine ⟨?_, ht0⟩
        show updJobs s.jobs id2 none id = none
        unfold updJobs
        by_cases hc : id = id2
        · rw [if_pos hc]
        · rw [if_neg hc]
          exact hj0
      · intro id j hj
        by_cases hc : id = id2
        · subst hc
          simp [updJobs] at hj
        · have hj2 : s.jobs id = some j := by
            simpa [updJobs, hc] using hj
          exact hjob id j hj2

lemma inv_reach {s : Ledger} (h : Reach s) : Inv s := by
  induction h with
  | refl => exact inv_init
  | tail _ hstep ih => exact inv_step ih hstep

lemma terminalStable_step {id : ℕ} {st : JStatus} {n : ℕ} (hid : id < n)
    {t u : Ledger} (h : TerminalStable id st n t) (hstep : Step t u) :
    TerminalStable id st n u := by
  obtain ⟨hn, htask, hjobd⟩ := h
  cases hstep with
  | upload src =>
      refine ⟨Nat.le_succ_of_le hn, htask, ?_⟩
      simp only [uploadResult, updJobs]
      rw [if_neg (by omega)]
      exact hjobd
  | taskBeginRun id2 j2 hlt ht hjd =>
      by_cases hc : id2 = id
      · subst hc
        rw [htask] at ht
        exact TaskPhase.noConfusion ht
      · have hne : id ≠ id2 := fun hh => hc hh.symm
        refine ⟨hn, ?_, ?_⟩
        · simp only [updTasks]
          rw [if_neg hne]
          exact htask
        · simp only [updJobs]
          rw [if_neg hne]
          exact hjobd
  | taskBeginGone id2 hlt ht hjd =>
      by_cases hc : id2 = id
      · subst hc
        rw [htask] at ht
        exact TaskPhase.noConfusion ht
      · have hne : id ≠ id2 := fun hh => hc hh.symm
        refine ⟨hn, ?_, hjobd⟩
        simp only [updTasks]
        rw [if_neg hne]
        exact htask
  | taskComplete id2 j2 r hlt ht hjd hread =>
      by_cases hc : id2 = id
      · subst hc
        rw [htask] at ht
        exact TaskPhase.noConfusion ht
      · have hne : id ≠ id2 := fun hh => hc hh.symm
        refine ⟨hn, ?_, ?_⟩
        · simp only [updTasks]
          rw [if_neg hne]
          exact htask
        · simp only [updJobs]
          rw [if_neg hne]
          exact hjobd
  | taskFail id2 j2 msg hlt ht hjd =>
      by_cases hc : id2 = id
      · subst hc
        rw [htask] at ht
        exact TaskPhase.noConfusion ht
      · have hne : id ≠ id2 := fun hh => hc hh.symm
        refine ⟨hn, ?_, ?_⟩
        · simp only [updTasks]
          rw [if_neg hne]
          exact htask
        · simp only [updJobs]
          rw [if_neg hne]
          exact hjobd
  | taskGone id2 hlt ht hjd =>
      by_cases hc : id2 = id
      · subst hc
        rw [htask] at ht
        exact TaskPhase.noConfusion ht
      · have hne : id ≠ id2 := fun hh => hc hh.symm
        refine ⟨hn, ?_, hjobd⟩
        simp only [updTasks]
        rw [if_neg hne]
        exact htask
  | deleteJob id2 =>
      by_cases hc : id = id2
      · subst hc
        refine ⟨hn, htask, Or.inl ?_⟩
        simp [updJobs]
      · refine ⟨hn, htask, ?_⟩
        simp only [updJobs]
        rw [if_neg hc]
        exact hjobd

lemma terminalStable_reach {id : ℕ} {st : JStatus} {n : ℕ} (hid : id < n)
    {t u : Ledger} (h : TerminalStable id st n t)
    (hsteps : Relation.ReflTransGen Step t u) : TerminalStable id st n u := by
  induction hsteps with
  | refl => exact h
  | tail _ hstep ih => exact terminalStable_step hid ih hstep

/-- C5 counterexample: a detection whose confidence is exactly 0.5 — hence not
below the threshold — is nevertheless discarded, because the source keeps only
detections with conf strictly greater than 0.5. -/
theorem C5_counterexample :
    (1 : ℚ)/2 ≥ 1/2 ∧
      detectObjects (Except.ok [{ label := "person", conf := 1/2 }]) = [] := by
  refine ⟨le_refl _, ?_⟩
  simp [detectObjects]

/-- C5 (amended): a detection returned by the detector capability is kept in
the objects list of the frame if and only if its confidence is strictly above
0.5; exactly the detections with confidence at most 0.5 are discarded, and a
failed detector call yields the empty list. -/
theorem C5_amended_threshold (raw : List Detection) (d : Detection) (e : String) :
    (d ∈ detectObjects (Except.ok raw) ↔ d ∈ raw ∧ (1 : ℚ)/2 < d.conf)
    ∧ detectObjects (Except.error e) = [] := by
  constructor
  · simp [detectObjects, List.mem_filter]
  · rfl

/-- C6: assess_quality is the unweighted mean of the four sub-scores —
sharpness (Laplacian variance over 1000, clamped to 1), brightness
(1 minus the distance of the mean intensity from 128, over 128), contrast
(standard deviation over 64, clamped to 1) and inverse noise (1 minus
noise over 50, clamped to the unit interval) — rounded to three decimals,
and its value lies in the unit interval; for a frame of uniform intensity
128 the brightness sub-score is exactly 1. -/
theorem C6_assess_quality (sig : QualitySignals) (n : ℕ)
    (hs : 0 ≤ sig.sharpness) (hb0 : 0 ≤ sig.brightness) (hb1 : sig.brightness ≤ 255)
    (hc : 0 ≤ sig.contrast) (hn : 0 ≤ sig.noise) (hpos : 0 < n) :
    assessQuality sig =
      pyRound3 ((min (sig.sharpness / 1000) 1 + (1 - |sig.brightness - 128| / 128)
        + min (sig.contrast / 64) 1 + max 0 (1 - sig.noise / 50)) / 4)
    ∧ 0 ≤ assessQuality sig ∧ assessQuality sig ≤ 1
    ∧ brightnessScore (meanIntensity (List.replicate n 128)) = 1 := by
  obtain ⟨h1a, h1b⟩ := sharpnessScore_mem sig.sharpness hs
  obtain ⟨h2a, h2b⟩ := brightnessScore_mem sig.brightness hb0 hb1
  obtain ⟨h3a, h3b⟩ := contrastScore_mem sig.contrast hc
  obtain ⟨h4a, h4b⟩ := noiseScore_mem sig.noise hn
  have hmean0 : 0 ≤ (sharpnessScore sig.sharpness + brightnessScore sig.brightness +
      contrastScore sig.contrast + noiseScore sig.noise) / 4 := by linarith
  have hmean1 : (sharpnessScore sig.sharpness + brightnessScore sig.brightness +
      contrastScore sig.contrast + noiseScore sig.noise) / 4 ≤ 1 := by linarith
  obtain ⟨hq0, hq1⟩ := pyRound3_mem _ hmean0 hmean1
  refine ⟨?_, hq0, hq1, ?_⟩
  · unfold assessQuality
    rw [noiseScore_eq_clamp]
    rfl
  · rw [meanIntensity_replicate n hpos]
    unfold brightnessScore
    norm_num

/-- C6 witness: the theorem applied to the concrete signal record
(sharpness 500, brightness 128, contrast 32, noise 10) and a four-pixel
uniform frame; on these signals assess_quality evaluates to 0.7. -/
theorem C6_assess_quality_witness :
    assessQuality { sharpness := 500, brightness := 128, contrast := 32, noise := 10 } = 7/10
    ∧ 0 ≤ assessQuality { sharpness := 500, brightness := 128, contrast := 32, noise := 10 }
    ∧ assessQuality { sharpness := 500, brightness := 128, contrast := 32, noise := 10 } ≤ 1
    ∧ brightnessScore (meanIntensity (List.replicate 4 128)) = 1 := by
  have h := C6_assess_quality
    { sharpness := 500, brightness := 128, contrast := 32, noise := 10 } 4
    (by norm_num) (by norm_num) (by norm_num) (by norm_num) (by norm_num) (by norm_num)
  refine ⟨?_, h.2.1, h.2.2.1, h.2.2.2⟩
  norm_num [assessQuality, sharpnessScore, brightnessScore, contrastScore,
    noiseScore, pyRound3, roundHalfEven]

/-- C7: estimate_noise never propagates an exception — it is a total function
that returns exactly the fallback constant 25.0 whenever the underlying
filtering raises (malformed input), and otherwise returns the standard
deviation of the response of the 3x3 kernel applied to the grayscale frame. -/
theorem C7_estimate_noise (g : List (List ℚ)) :
    (wellFormed g = false → estimateNoise g = 25)
    ∧ (wellFormed g = true →
        estimateNoise g = stdOf (filterResponse g g.length (g.headD []).length)) := by
  constructor <;> intro h <;> simp [estimateNoise, filter2D, h]

/-- C7 witness: the empty grid is malformed and yields exactly 25; the
two-by-two all-zero grid is well formed, yields the standard deviation of its
kernel response, and that value evaluates to 0. -/
theorem C7_estimate_noise_witness :
    wellFormed ([] : List (List ℚ)) = false
    ∧ estimateNoise ([] : List (List ℚ)) = 25
    ∧ wellFormed [[(0 : ℚ), 0], [0, 0]] = true
    ∧ estimateNoise [[(0 : ℚ), 0], [0, 0]] =
        stdOf (filterResponse [[(0 : ℚ), 0], [0, 0]] 2 2)
    ∧ estimateNoise [[(0 : ℚ), 0], [0, 0]] = 0 := by
  have h1 := (C7_estimate_noise []).1 rfl
  have h2 := (C7_estimate_noise [[(0 : ℚ), 0], [0, 0]]).2 rfl
  refine ⟨rfl, h1, rfl, by simpa using h2, ?_⟩
  have hresp : filterResponse [[(0 : ℚ), 0], [0, 0]] 2 2 = [0, 0, 0, 0] := by
    norm_num [filterResponse, List.range_succ, response, kernelOffsets,
      noiseKernel, refl101, px]
  have : estimateNoise [[(0 : ℚ), 0], [0, 0]] = stdOf [0, 0, 0, 0] := by
    simpa [hresp] using h2
  rw [this]
  unfold stdOf
  norm_num [varOf, meanIntensity]

/-- C8: exactly the frames whose raw decode index is divisible by the stride
are analyzed, in raw decode order; for stride 30 and a 301-frame source,
exactly 11 frames are sampled, at indices 0, 30, ..., 300. -/
theorem C8_sampling (total stride : ℕ) (_hs : 0 < stride) :
    (∀ i, i ∈ sampledIndices total stride ↔ i < total ∧ stride ∣ i)
    ∧ List.Pairwise (· < ·) (sampledIndices total stride)
    ∧ sampledIndices 301 30 = [0, 30, 60, 90, 120, 150, 180, 210, 240, 270, 300]
    ∧ (sampledIndices 301 30).length = 11 := by
  refine ⟨?_, ?_, by decide, by decide⟩
  · intro i
    simp only [sampledIndices, List.mem_filter, List.mem_range, decide_eq_true_eq]
    simp [Nat.dvd_iff_mod_eq_zero]
  · exact (List.pairwise_lt_range total).filter _

/-- C8 witness: the theorem applied to the 301-frame source with stride 30. -/
theorem C8_sampling_witness :
    0 < 30
    ∧ sampledIndices 301 30 = [0, 30, 60, 90, 120, 150, 180, 210, 240, 270, 300]
    ∧ (60 ∈ sampledIndices 301 30 ↔ 60 < 301 ∧ 30 ∣ 60) := by
  exact ⟨by decide, (C8_sampling 301 30 (by decide)).2.2.1,
    (C8_sampling 301 30 (by decide)).1 60⟩

/-- C9: aggregating zero sampled frames (a zero-length video) is not an error:
the summary has mean, min and max quality all 0, an empty object histogram and
a face total of 0. -/
theorem C9_empty_aggregation (stride : ℕ) (caps : ℕ → FrameCaps) :
    processVideo 0 stride caps =
      { framesProcessed := 0, objectsSummary := [], faceTotal := 0,
        qmean := 0, qmin := 0, qmax := 0 } := rfl

/-- C10: motion detection returns False on every frame on which it runs, and
the motion flag of every record produced by analyze_frame is False regardless
of the frame content. -/
theorem C10_motion_always_false :
    (∀ c : FrameCaps, (analyzeFrame c).motion = false)
    ∧ (∀ u : Unit, detectMotion (Except.ok u) = Except.ok false) := by
  refine ⟨?_, fun u => rfl⟩
  intro c
  cases hp : c.motionPre <;> simp [analyzeFrame, detectMotion, hp]

/-- Aggregation fold under an always-failing object detector and well-formed
frames: the histogram is left untouched, faces and quality flow through, and
every sampled frame is counted. -/
lemma runAggFrom_objfail (caps : ℕ → FrameCaps) (l : List ℕ) (s : AggState)
    (hobj : ∀ i ∈ l, ∃ e, (caps i).objRaw = Except.error e)
    (hmot : ∀ i ∈ l, (caps i).motionPre = Except.ok ()) :
    runAggFrom caps l s =
      { allObjects := s.allObjects
        faceTotal := s.faceTotal +
          (l.map (fun i => (detectFaces (caps i).faceRaw).length)).sum
        qualityScores := s.qualityScores ++
          l.map (fun i => assessQuality (caps i).quality)
        framesProcessed := s.framesProcessed + l.length } := by
  induction l generalizing s with
  | nil => simp [runAggFrom]
  | cons i t ih =>
      obtain ⟨e, he⟩ := hobj i (List.mem_cons_self i t)
      have hm := hmot i (List.mem_cons_self i t)
      have hstep : analyzeFrame (caps i) =
          { objects := [], faces := detectFaces (caps i).faceRaw, motion := false,
            quality := assessQuality (caps i).quality } := by
        simp [analyzeFrame, detectMotion, he, hm, detectObjects]
      have hunf : runAggFrom caps (i :: t) s =
          runAggFrom caps t (stepFrame s (analyzeFrame (caps i))) := rfl
      rw [hunf, ih (stepFrame s (analyzeFrame (caps i)))
        (fun j hj => hobj j (List.mem_cons_of_mem i hj))
        (fun j hj => hmot j (List.mem_cons_of_mem i hj)), hstep]
      simp [stepFrame, List.append_assoc]
      omega

/-- C4: a failure in one detector yields an empty result for that detector
only — the other detector still runs and the frame is still scored; and when
the object detector fails on every call, the summary still counts every
sampled frame, its quality statistics are those of the (nonempty, when any
frame was sampled) quality scores, and its object histogram is empty. -/
theorem C4_detector_isolation (total stride : ℕ) (caps : ℕ → FrameCaps)
    (hobj : ∀ i, ∃ e, (caps i).objRaw = Except.error e)
    (hmot : ∀ i, (caps i).motionPre = Except.ok ()) :
    (∀ (c : FrameCaps) (e : String), c.objRaw = Except.error e →
        c.motionPre = Except.ok () →
        analyzeFrame c =
          { objects := [], faces := detectFaces c.faceRaw, motion := false,
            quality := assessQuality c.quality })
    ∧ (∀ (c : FrameCaps) (e : String), c.faceRaw = Except.error e →
        c.motionPre = Except.ok () →
        analyzeFrame c =
          { objects := detectObjects c.objRaw, faces := [], motion := false,
            quality := assessQuality c.quality })
    ∧ (processVideo total stride caps).objectsSummary = []
    ∧ (processVideo total stride caps).framesProcessed =
        (sampledIndices total stride).length
    ∧ (processVideo total stride caps).qmean =
        qMean ((sampledIndices total stride).map
          (fun i => assessQuality (caps i).quality))
    ∧ (processVideo total stride caps).qmin =
        qMin ((sampledIndices total stride).map
          (fun i => assessQuality (caps i).quality))
    ∧ (processVideo total stride caps).qmax =
        qMax ((sampledIndices total stride).map
          (fun i => assessQuality (caps i).quality))
    ∧ (0 < total → 0 < stride →
        (sampledIndices total stride).map
          (fun i => assessQuality (caps i).quality) ≠ []) := by
  have hrun := runAggFrom_objfail caps (sampledIndices total stride) initAgg
    (fun i _ => hobj i) (fun i _ => hmot i)
  have hpv : processVideo total stride caps =
      buildSummary (runAggFrom caps (sampledIndices total stride) initAgg) := rfl
  refine ⟨?_, ?_, ?_, ?_, ?_, ?_, ?_, ?_⟩
  · intro c e he hm
    simp [analyzeFrame, detectMotion, he, hm, detectObjects]
  · intro c e he hm
    simp [analyzeFrame, detectMotion, he, hm, detectFaces]
  · rw [hpv, hrun]; simp [buildSummary, initAgg]
  · rw [hpv, hrun]; simp [buildSummary, initAgg]
  · rw [hpv, hrun]; simp [buildSummary, initAgg]
  · rw [hpv, hrun]; simp [buildSummary, initAgg]
  · rw [hpv, hrun]; simp [buildSummary, initAgg]
  · intro htot hstr
    have hmem : 0 ∈ sampledIndices total stride := by
      simp only [sampledIndices, List.mem_filter, List.mem_range, decide_eq_true_eq]
      exact ⟨htot, Nat.zero_mod stride⟩
    intro hcon
    rw [List.map_eq_nil_iff] at hcon
    rw [hcon] at hmem
    exact List.not_mem_nil 0 hmem

/-- C4 witness: the theorem applied to a 61-frame source with stride 30 under
an always-failing object detector — three frames are sampled and counted, the
histogram is empty and the quality-score list is nonempty. -/
theorem C4_detector_isolation_witness :
    (processVideo 61 30 failingCaps).objectsSummary = []
    ∧ (processVideo 61 30 failingCaps).framesProcessed =
        (sampledIndices 61 30).length
    ∧ (processVideo 61 30 failingCaps).framesProcessed = 3
    ∧ (sampledIndices 61 30).map
        (fun i => assessQuality (failingCaps i).quality) ≠ [] := by
  have h := C4_detector_isolation 61 30 failingCaps
    (fun i => ⟨"object detection failed", rfl⟩) (fun i => rfl)
  refine ⟨h.2.2.1, h.2.2.2.1, ?_, h.2.2.2.2.2.2.2 (by decide) (by decide)⟩
  rw [h.2.2.2.1]
  decide

/-- C2: in every reachable state, a completed job has a result and no error
message, a failed job has an error message and no result, and a pending or
processing job has neither. -/
theorem C2_status_result_invariant (s : Ledger) (hs : Reach s) (id : ℕ) (j : Job)
    (hj : s.jobs id = some j) :
    (j.status = JStatus.completed →
      (∃ r, j.result = some r) ∧ j.errorMessage = none)
    ∧ (j.status = JStatus.failed →
      (∃ m, j.errorMessage = some m) ∧ j.result = none)
    ∧ (j.status = JStatus.pending ∨ j.status = JStatus.processing →
      j.result = none ∧ j.errorMessage = none) := by
  obtain ⟨_, hjob⟩ := inv_reach hs
  obtain ⟨h1, h2, h3, h4⟩ := (hjob id j hj).2
  refine ⟨fun h => ⟨(h3 h).1, (h3 h).2.1⟩, fun h => ⟨(h4 h).2.1, (h4 h).1⟩, ?_⟩
  rintro (h | h)
  · exact ⟨(h1 h).1, (h1 h).2.1⟩
  · exact ⟨(h2 h).1, (h2 h).2.1⟩

/-- C2 witness: the invariant applied to the state reached by one upload,
whose single job is pending with no result and no error message. -/
theorem C2_status_result_invariant_witness :
    Reach uploadedOnce
    ∧ uploadedOnce.jobs 0 = some (pendingJob srcGood)
    ∧ (pendingJob srcGood).result = none
    ∧ (pendingJob srcGood).errorMessage = none := by
  have hreach : Reach uploadedOnce :=
    Relation.ReflTransGen.single (Step.upload initLedger srcGood)
  have hjobs : uploadedOnce.jobs 0 = some (pendingJob srcGood) := rfl
  have h := C2_status_result_invariant uploadedOnce hreach 0 (pendingJob srcGood) hjobs
  exact ⟨hreach, hjobs, (h.2.2 (Or.inl rfl)).1, (h.2.2 (Or.inl rfl)).2⟩

/-- C3: once a job has been observed completed or failed in a reachable state,
every later reachable state either no longer stores the job (deletion) or
stores it with the same status — terminal statuses never change. -/
theorem C3_terminal_states (s t : Ledger) (hs : Reach s) (id : ℕ) (j : Job)
    (hj : s.jobs id = some j)
    (hterm : j.status = JStatus.completed ∨ j.status = JStatus.failed)
    (hst : Relation.ReflTransGen Step s t) :
    t.jobs id = none ∨ ∃ j2, t.jobs id = some j2 ∧ j2.status = j.status := by
  obtain ⟨hfresh, hjob⟩ := inv_reach hs
  obtain ⟨hid, hsi⟩ := hjob id j hj
  obtain ⟨h1, h2, h3, h4⟩ := hsi
  have hdone : s.tasks id = TaskPhase.done := by
    rcases hterm with h | h
    · exact (h3 h).2.2.1
    · exact (h4 h).2.2
  have hstart : TerminalStable id j.status s.nextId s :=
    ⟨le_refl _, hdone, Or.inr ⟨j, hj, rfl⟩⟩
  exact (terminalStable_reach hid hstart hst).2.2

lemma reach_L1 : Reach L1 :=
  Relation.ReflTransGen.single (Step.upload initLedger srcBad)

lemma reach_L3 : Reach L3 := by
  have h12 : Step L1 L2 :=
    Step.taskBeginRun L1 0 (pendingJob srcBad) (by decide) rfl rfl
  have h23 : Step L2 L3 :=
    Step.taskFail L2 0 jobProcessingBad "Cannot open video: uploads/bad.mp4"
      (by decide) rfl rfl
  exact Relation.ReflTransGen.tail (Relation.ReflTransGen.tail reach_L1 h12) h23

/-- C3 witness: the theorem applied to the concrete failed job of the
unreadable-source trace and the deletion step that follows it. -/
theorem C3_terminal_states_witness :
    Reach L3
    ∧ L3.jobs 0 = some jobFailedBad
    ∧ jobFailedBad.status = JStatus.failed
    ∧ (L4.jobs 0 = none ∨ ∃ j2, L4.jobs 0 = some j2 ∧ j2.status = jobFailedBad.status) := by
  have h := C3_terminal_states L3 L4 reach_L3 0 jobFailedBad rfl (Or.inr rfl)
    (Relation.ReflTransGen.single (Step.deleteJob L3 0))
  exact ⟨reach_L3, rfl, rfl, h⟩

/-- C1 counterexample: submitting a video source that cannot be opened does
create a job — the upload step never opens the source; the job is pending
right after submission and the open failure surfaces only later, as the
terminal failed state of that same job. -/
theorem C1_counterexample :
    Reach L1
    ∧ L1.jobs 0 = some (pendingJob srcBad)
    ∧ (pendingJob srcBad).src.readable = false
    ∧ Reach L3
    ∧ L3.jobs 0 = some jobFailedBad
    ∧ jobFailedBad.status = JStatus.failed := by
  exact ⟨reach_L1, rfl, rfl, reach_L3, rfl, rfl⟩

/-- C1 (amended): submission never inspects the video source — for every
source, readable or not, upload creates a pending job under a fresh id and
returns; every failure mode, including an unopenable source, surfaces only
later as a terminal failed job state, and a job whose source is unreadable is
never completed in any reachable state. -/
theorem C1_amended_async_failure (s : Ledger) (src : Source) (hs : Reach s) :
    (uploadResult s src).jobs s.nextId = some (pendingJob src)
    ∧ Step s (uploadResult s src)
    ∧ (∀ id j, s.jobs id = some j → j.src.readable = false →
        j.status ≠ JStatus.completed) := by
  refine ⟨?_, Step.upload s src, ?_⟩
  · simp [uploadResult, updJobs]
  · intro id j hj hread hcon
    obtain ⟨_, hjob⟩ := inv_reach hs
    have hcomp := ((hjob id j hj).2).2.2.1 hcon
    rw [hread] at hcomp
    exact Bool.noConfusion hcomp.2.2.2

/-- C1 witness: the amended theorem applied to the fresh system and the
unreadable source. -/
theorem C1_amended_async_failure_witness :
    (uploadResult initLedger srcBad).jobs 0 = some (pendingJob srcBad)
    ∧ Step initLedger (uploadResult initLedger srcBad) := by
  have h := C1_amended_async_failure initLedger srcBad Relation.ReflTransGen.refl
  exact ⟨h.1, h.2.1⟩

end Evidence

